import Mathlib

/-!
A shallow embedding of the `CustomDebug` derive macro of `src/debug/src/lib.rs`
(and, for the builder claim, a spec-modelled fragment of the builder generator).

The embedding models the `syn` syntax-tree values the program manipulates:

* `Ty` models `syn::Type` restricted to the shapes the program inspects: a
  `Type::Path` is a list of segments, each an identifier together with the
  list of its angle-bracketed *type* arguments; every non-path type that
  contains no nested path node is collapsed to `Ty.nonPath` (the program's
  visitor never extracts anything from such a leaf).  Lifetime and const
  generic arguments, qualified-self paths and type-parameter defaults are
  outside the modelled input domain.
* Attribute metadata (`syn::Meta` / `syn::Expr` / `syn::Lit`) is modelled by
  `SynMeta` / `SynExpr`; an attribute is its (already parsed) meta item, and
  `attr.path()` is the meta item's leading identifier.
* `syn::parse_str::<WherePredicate>` applied to an escape-hatch string is
  modelled as the `WherePredicate.raw` constructor (the string kept verbatim);
  `parse_quote!(#ty : std::fmt::Debug)` is modelled as `WherePredicate.tyBound`.
* Rust's `std::collections::HashMap<String, Vec<TypePath>>` iterates its
  entries in an unspecified, seed-dependent order.  The map is modelled as an
  association list in key-first-insertion order, and the one loop that
  iterates over the map (`for (_, associated_types) in associated_types_map`)
  is parameterised by the iteration order `order` (`addTraitBoundsWith`);
  `addTraitBounds` fixes the first-insertion order as a canonical choice.
* Rust panics (`unimplemented!()` in `debug_fields`) are modelled by `Option`
  (`none` = panic), kept distinct from the structured `syn::Error` results,
  which are modelled by `Except String`.
-/

/-- `syn::Type`, restricted as described in the header: a path is a list of
segments `(identifier, type arguments)`; `nonPath` is a non-path type
containing no nested path node. -/
inductive Ty where
  | nonPath : Ty
  | path : List (String × List Ty) → Ty

/-- One entry of a where clause.  `tyBound ty bs` is the predicate
`#ty : bound₁ + ⋯` produced by `parse_quote!`; `raw s` is the predicate
obtained by `syn::parse_str` from the escape-hatch string `s`. -/
inductive WherePredicate where
  | tyBound : Ty → List String → WherePredicate
  | raw : String → WherePredicate

/-- `syn::TypeParam`: identifier and bound list (bounds kept as opaque
strings; the program only ever appends `std::fmt::Debug`). -/
structure TypeParam where
  ident : String
  bounds : List String

/-- `syn::GenericParam`: a type parameter, or a lifetime/const parameter
(which the program always skips). -/
inductive GenericParam where
  | typeParam : TypeParam → GenericParam
  | otherParam : GenericParam

/-- `syn::Generics`: the parameter list and the optional where clause. -/
structure Generics where
  params : List GenericParam
  whereClause : Option (List WherePredicate)

/-- The value of a `Meta::NameValue` entry (`syn::Expr`): a string literal,
a non-string literal, or a non-literal expression. -/
inductive SynExpr where
  | litStr : String → SynExpr
  | litOther : SynExpr
  | nonLit : SynExpr

/-- `syn::Meta`: a bare path, `path = value`, or `path(nested, …)` with the
nested items already parsed. -/
inductive SynMeta where
  | metaPath : String → SynMeta
  | nameValue : String → SynExpr → SynMeta
  | list : String → List SynMeta → SynMeta

/-- The leading identifier of a meta item; models `attr.path().is_ident(_)`
comparisons (an attribute is identified with its meta item). -/
def SynMeta.head : SynMeta → String
  | .metaPath p => p
  | .nameValue p _ => p
  | .list p _ => p

/-- `attr.parse_args_with(Punctuated::<Meta, Token![,]>::parse_terminated)`:
succeeds exactly on a list-shaped attribute, yielding the nested meta items. -/
def SynMeta.parseArgsMetaList : SynMeta → Option (List SynMeta)
  | .list _ nested => some nested
  | _ => none

/-- `syn::Field` of a named-fields struct: identifier, attributes, type. -/
structure SynField where
  ident : String
  attrs : List SynMeta
  ty : Ty

/-- `syn::Data`: named-fields struct, other struct (tuple/unit), or a
non-struct item (enum/union) — the program treats the last two identically. -/
inductive SynData where
  | structNamed : List SynField → SynData
  | structOther : SynData
  | notStruct : SynData

/-- `syn::DeriveInput`. -/
structure DeriveInput where
  attrs : List SynMeta
  ident : String
  generics : Generics
  data : SynData

/-- `get_fields_from_derive_input` (src/debug/src/lib.rs:81). -/
def getFieldsFromDeriveInput (d : DeriveInput) : Except String (List SynField) :=
  match d.data with
  | .structNamed fs => .ok fs
  | _ => .error "Must define on a Struct, not Enum"

/-- `get_field_type_name` (src/debug/src/lib.rs:174): the identifier of the
last segment of a path-typed field. -/
def getFieldTypeName (f : SynField) : Option String :=
  match f.ty with
  | .path segs => segs.getLast?.map (·.1)
  | .nonPath => none

/-- `get_phantomdata_generic_type_name` (src/debug/src/lib.rs:183): when the
last segment is `PhantomData` and its first type argument is a path, the
identifier of that path's first segment. -/
def getPhantomdataGenericTypeName (f : SynField) : Option String :=
  match f.ty with
  | .path segs =>
    match segs.getLast? with
    | some (ident, args) =>
      if ident = "PhantomData" then
        match args.head? with
        | some (.path gsegs) => gsegs.head?.map (·.1)
        | _ => none
      else none
    | none => none
  | .nonPath => none

/-- The recognised entries of `get_struct_escape_hatch`'s filter:
`bound = "literal string"`. -/
def hatchOfMeta : SynMeta → Option String
  | .nameValue p (.litStr s) => if p = "bound" then some s else none
  | _ => none

/-- The accumulation loop of `get_struct_escape_hatch`
(src/debug/src/lib.rs:147): every `#[debug(...)]` attribute contributes its
`bound = "..."` entries, in attribute order then entry order. -/
def collectHatches (attrs : List SynMeta) : List String :=
  attrs.foldl (fun acc attr =>
    if attr.head = "debug" then
      match attr.parseArgsMetaList with
      | some nested => acc ++ nested.filterMap hatchOfMeta
      | none => acc
    else acc) []

/-- `get_struct_escape_hatch` (src/debug/src/lib.rs:147). -/
def getStructEscapeHatch (input : DeriveInput) : Option (List String) :=
  let hs := collectHatches input.attrs
  if hs.isEmpty then none else some hs

mutual
/-- The `TypePathVisitor` hook `visit_type_path` (src/debug/src/lib.rs:50),
as the depth-first pre-order list of its recorded hits: every path node with
at least two segments whose first identifier is a known generic parameter
name contributes `(that identifier, the full path node)`. -/
def collectTy (gens : List String) : Ty → List (String × Ty)
  | .nonPath => []
  | .path segs =>
    (match segs with
     | (i, _) :: _ :: _ => if gens.contains i then [(i, Ty.path segs)] else []
     | _ => []) ++ collectSegs gens segs

/-- Recursion of the visitor through the segments of a path. -/
def collectSegs (gens : List String) : List (String × List Ty) → List (String × Ty)
  | [] => []
  | (_, args) :: rest => collectArgs gens args ++ collectSegs gens rest

/-- Recursion of the visitor through the type arguments of a segment. -/
def collectArgs (gens : List String) : List Ty → List (String × Ty)
  | [] => []
  | ty :: rest => collectTy gens ty ++ collectArgs gens rest
end

/-- `origin_generic_param_names` (src/debug/src/lib.rs:64): the identifiers of
the type parameters, in declaration order. -/
def genericTypeNames (input : DeriveInput) : List String :=
  input.generics.params.filterMap fun p =>
    match p with
    | .typeParam tp => some tp.ident
    | .otherParam => none

/-- `visitor.visit_derive_input(input)` (src/debug/src/lib.rs:76): the visitor
walks the generics (where-clause bounded types) before the data (field types),
each depth-first in order. -/
def collectInput (input : DeriveInput) : List (String × Ty) :=
  let gens := genericTypeNames input
  ((input.generics.whereClause.getD []).flatMap fun p =>
    match p with
    | .tyBound ty _ => collectTy gens ty
    | .raw _ => []) ++
  (match input.data with
   | .structNamed fs => fs.flatMap fun f => collectTy gens f.ty
   | _ => [])

/-- First-occurrence-ordered key list: keep a key when it was not seen yet. -/
def keysAux (seen : List String) : List (String × Ty) → List String
  | [] => []
  | (k, _) :: rest =>
    if seen.contains k then keysAux seen rest else k :: keysAux (k :: seen) rest

/-- First-occurrence-ordered list of the keys of a hit list. -/
def keysOf (l : List (String × Ty)) : List String :=
  keysAux [] l

/-- The `HashMap` of `get_generic_associated_types` as an association list:
one entry per key, values in hit order. -/
def groupByKey (l : List (String × Ty)) : List (String × List Ty) :=
  (keysOf l).map fun k => (k, l.filterMap fun p => if p.1 = k then some p.2 else none)

/-- `get_generic_associated_types` (src/debug/src/lib.rs:63). -/
def getGenericAssociatedTypes (input : DeriveInput) : List (String × List Ty) :=
  groupByKey (collectInput input)

/-- The body of the parameter loop of `add_trait_bounds`
(src/debug/src/lib.rs:119-130): skip a parameter that is phantom-wrapped or
associated-type-used and not a direct field type name, otherwise append the
`std::fmt::Debug` bound. -/
def boundParamStep (phantomNames fieldTypeNames assocKeys : List String)
    (p : GenericParam) : GenericParam :=
  match p with
  | .typeParam tp =>
    if phantomNames.contains tp.ident && !fieldTypeNames.contains tp.ident then p
    else if assocKeys.contains tp.ident && !fieldTypeNames.contains tp.ident then p
    else .typeParam { tp with bounds := tp.bounds ++ ["std::fmt::Debug"] }
  | .otherParam => p

/-- `add_trait_bounds` (src/debug/src/lib.rs:93), parameterised by the
iteration order `order` of the `HashMap` loop at line 133 (Rust's `HashMap`
iterates in an unspecified seed-dependent order; a faithful `order` is any
permutation of the grouped entries). -/
def addTraitBoundsWith (order : List (String × List Ty) → List (String × List Ty))
    (input : DeriveInput) : Except String Generics :=
  match getStructEscapeHatch input with
  | some hs =>
    .ok { params := input.generics.params,
          whereClause :=
            some ((input.generics.whereClause.getD []) ++ hs.map WherePredicate.raw) }
  | none =>
    match getFieldsFromDeriveInput input with
    | .error e => .error e
    | .ok fs =>
      let fieldTypeNames := fs.filterMap getFieldTypeName
      let phantomNames := fs.filterMap getPhantomdataGenericTypeName
      let assoc := getGenericAssociatedTypes input
      let params := input.generics.params.map
        (boundParamStep phantomNames fieldTypeNames (assoc.map (·.1)))
      let preds := (order assoc).flatMap fun kv =>
        kv.2.map fun p => WherePredicate.tyBound p ["std::fmt::Debug"]
      .ok { params := params,
            whereClause := some ((input.generics.whereClause.getD []) ++ preds) }

/-- `add_trait_bounds` with the canonical (first-insertion) map order. -/
def addTraitBounds : DeriveInput → Except String Generics :=
  addTraitBoundsWith id

/-- One emitted `.field(...)` call of the generated `fmt` body. -/
inductive FieldFmt where
  | custom : String → String → FieldFmt
  | dflt : String → FieldFmt
deriving DecidableEq

/-- The field name printed by a `.field(...)` call. -/
def FieldFmt.name : FieldFmt → String
  | .custom n _ => n
  | .dflt n => n

/-- The attribute loop of `debug_fields` (src/debug/src/lib.rs:207-221) over
one field's attributes: a `debug = "lit"` name-value overwrites the format,
a `debug` attribute of any other meta shape is `unimplemented!()` (`none`),
other attributes are skipped. -/
def fieldFormatFold : List SynMeta → Option String → Option (Option String)
  | [], acc => some acc
  | a :: rest, acc =>
    if a.head = "debug" then
      match a with
      | .nameValue _ (.litStr s) => fieldFormatFold rest (some s)
      | .nameValue _ _ => fieldFormatFold rest acc
      | _ => none
    else fieldFormatFold rest acc

/-- The per-field emission of `debug_fields`: the `.field(...)` call, custom
via `format_args!` when a format string was found. -/
def fieldFmtOf (f : SynField) : Option FieldFmt :=
  (fieldFormatFold f.attrs none).map fun fmt =>
    match fmt with
    | some s => .custom f.ident s
    | none => .dflt f.ident

/-- `debug_fields` (src/debug/src/lib.rs:200): the emitted `.field` calls in
field order; `none` models the `unimplemented!()` panics (non-named-struct
data, or a list/path-shaped `debug` attribute on a field). -/
def debugFields : SynData → Option (List FieldFmt)
  | .structNamed fs => fs.mapM fieldFmtOf
  | _ => none

/-- The code artifact assembled by `expand` (src/debug/src/lib.rs:30-39): the
`Debug` impl prints `name` via `debug_struct` followed by the `.field` calls,
under the generics returned by `add_trait_bounds`. -/
structure Artifact where
  name : String
  generics : Generics
  fields : List FieldFmt

/-- Outcome of one macro expansion: a complete artifact, a structured
`syn::Error` (turned into a compile error by the driver), or a panic. -/
inductive ExpandResult where
  | ok : Artifact → ExpandResult
  | err : String → ExpandResult
  | panicked : ExpandResult

/-- `expand` (src/debug/src/lib.rs:22): `add_trait_bounds` first (`?` turns
its error into the structured result), then `debug_fields` (whose
`unimplemented!()` is a panic). -/
def expand (input : DeriveInput) : ExpandResult :=
  match addTraitBounds input with
  | .error e => .err e
  | .ok g =>
    match debugFields input.data with
    | none => .panicked
    | some l => .ok { name := input.ident, generics := g, fields := l }

/-! ### Claim-side vocabulary

Predicates used to state the claims' hypotheses about how a generic
parameter identifier occurs inside field types.  They speak about the
syntax trees of the input only, independently of the program's analysis. -/

mutual
/-- The identifier `t` occurs somewhere in the type: as any segment
identifier of any path node of the tree. -/
def mentionsTy (t : String) : Ty → Bool
  | .nonPath => false
  | .path segs => mentionsSegs t segs

/-- `mentionsTy` on each segment of a path. -/
def mentionsSegs (t : String) : List (String × List Ty) → Bool
  | [] => false
  | (i, args) :: rest => i == t || mentionsArgs t args || mentionsSegs t rest

/-- `mentionsTy` on each type argument of a segment. -/
def mentionsArgs (t : String) : List Ty → Bool
  | [] => false
  | ty :: rest => mentionsTy t ty || mentionsArgs t rest
end

/-- Within one segment list, the identifier `t` may appear only as the head
segment of a path of length at least two. -/
def onlyRootSegsOk (t : String) : List (String × List Ty) → Bool
  | [] => true
  | (i, _) :: rest => (i != t || !rest.isEmpty) && rest.all (fun s => s.1 != t)

mutual
/-- Every occurrence of the identifier `t` in the type is as the first
segment of a path with at least two segments (an associated-type reference
rooted at `t`, such as `t::Value`). -/
def onlyRootTy (t : String) : Ty → Bool
  | .nonPath => true
  | .path segs => onlyRootSegsOk t segs && onlyRootSegsArgs t segs

/-- `onlyRootTy` pushed through the segments of a path. -/
def onlyRootSegsArgs (t : String) : List (String × List Ty) → Bool
  | [] => true
  | (_, args) :: rest => onlyRootArgsAll t args && onlyRootSegsArgs t rest

/-- `onlyRootTy` on each type argument of a segment. -/
def onlyRootArgsAll (t : String) : List Ty → Bool
  | [] => true
  | ty :: rest => onlyRootTy t ty && onlyRootArgsAll t rest
end

/-- The type is the plain single-segment, argument-free path `t` (the
parameter used directly as a field's type). -/
def isPlainT (t : String) : Ty → Bool
  | .path [(x, args)] => x == t && args.isEmpty
  | _ => false

/-- The field's type is the marker wrapper `PhantomData` whose sole type
argument is the plain path `t`, and `t` occurs nowhere else in that type:
`pre::PhantomData<t>` with `t` not mentioned in `pre`. -/
def isPhantomFieldFor (t : String) (f : SynField) : Prop :=
  ∃ pre, f.ty = Ty.path (pre ++ [("PhantomData", [Ty.path [(t, [])]])]) ∧
    mentionsSegs t pre = false

/-- The bound list of the first type parameter named `t`. -/
def lookupParamBounds (t : String) : List GenericParam → Option (List String)
  | [] => none
  | .typeParam tp :: rest =>
    if tp.ident = t then some tp.bounds else lookupParamBounds t rest
  | .otherParam :: rest => lookupParamBounds t rest

/-- The bound list of parameter `t` in the generics produced by
`add_trait_bounds` (`none` when the call failed or `t` is absent). -/
def boundsOf (r : Except String Generics) (t : String) : Option (List String) :=
  match r with
  | .ok g => lookupParamBounds t g.params
  | .error _ => none

/-- The where-clause predicates of the generics produced by
`add_trait_bounds` (empty when the call failed). -/
def wherePredsOf (r : Except String Generics) : List WherePredicate :=
  match r with
  | .ok g => g.whereClause.getD []
  | .error _ => []

/-! ### Spec-modelled builder generator fragment (claim C10)

The builder generator itself is not under src/ (only its example caller
src/builder/examples/builder-for-expand/src/main.rs is), so the per-field
method emission is modelled from the spec. -/

/-- Modelled from the spec: one field of a record as the builder generator
sees it — its identifier and the optional `each = "name"` annotation
(spec §4.4; the builder source is missing from src/). -/
structure BuilderField where
  ident : String
  eachName : Option String

/-- Modelled from the spec: a method emitted by the builder generator —
either the all-at-once setter or the one-element-at-a-time accumulating
setter, identified by its emitted name. -/
inductive BuilderMethod where
  | allAtOnce : String → BuilderMethod
  | accumulating : String → BuilderMethod
deriving DecidableEq

/-- The name under which a builder method is emitted. -/
def BuilderMethod.mname : BuilderMethod → String
  | .allAtOnce n => n
  | .accumulating n => n

/-- Modelled from the spec: the methods the builder generator emits for one
field (spec §4.4): no `each` annotation — the all-at-once setter named after
the field; `each = "name"` — the accumulating setter named `name`, plus the
all-at-once setter unless `name` equals the field's own identifier
(collision-avoidance policy). -/
def builderFieldMethods (f : BuilderField) : List BuilderMethod :=
  match f.eachName with
  | none => [.allAtOnce f.ident]
  | some n =>
    if n = f.ident then [.accumulating n]
    else [.allAtOnce f.ident, .accumulating n]

/-- Modelled from the spec: all builder methods of a record, per field in
declaration order. -/
def builderMethods (fields : List BuilderField) : List BuilderMethod :=
  fields.flatMap builderFieldMethods

/-! ### Concrete inputs used by witnesses and counterexamples -/

/-- A record with two record-level escape-hatch entries whose field would
have made inference add `T: Debug`. -/
def c1In : DeriveInput :=
  { attrs := [SynMeta.list "debug" [SynMeta.nameValue "bound" (SynExpr.litStr "T: Trait")],
              SynMeta.list "debug" [SynMeta.nameValue "bound" (SynExpr.litStr "U: Copy")]],
    ident := "S",
    generics := { params := [.typeParam ⟨"T", []⟩, .typeParam ⟨"U", []⟩],
                  whereClause := none },
    data := .structNamed [⟨"x", [], Ty.path [("T", [])]⟩] }

/-- `struct S<T> { m: PhantomData<T> }`. -/
def c2aIn : DeriveInput :=
  { attrs := [], ident := "S",
    generics := { params := [.typeParam ⟨"T", []⟩], whereClause := none },
    data := .structNamed
      [⟨"m", [], Ty.path [("PhantomData", [Ty.path [("T", [])]])]⟩] }

/-- `struct S2<T> { m: PhantomData<T>, v: T }`. -/
def c2bIn : DeriveInput :=
  { attrs := [], ident := "S2",
    generics := { params := [.typeParam ⟨"T", []⟩], whereClause := none },
    data := .structNamed
      [⟨"m", [], Ty.path [("PhantomData", [Ty.path [("T", [])]])]⟩,
       ⟨"v", [], Ty.path [("T", [])]⟩] }

/-- The associated-type path `T::Value`. -/
def c3P : Ty := Ty.path [("T", []), ("Value", [])]

/-- The field `a: T::Value`. -/
def c3F : SynField := ⟨"a", [], c3P⟩

/-- `struct S<T> { a: T::Value }`. -/
def c3In : DeriveInput :=
  { attrs := [], ident := "S",
    generics := { params := [.typeParam ⟨"T", []⟩], whereClause := none },
    data := .structNamed [c3F] }

/-- `struct S<T, U> { a: T::Value, b: U::Value }`: two parameters with
associated-type uses, so the where-clause loop iterates a two-entry map. -/
def c4In : DeriveInput :=
  { attrs := [], ident := "S",
    generics := { params := [.typeParam ⟨"T", []⟩, .typeParam ⟨"U", []⟩],
                  whereClause := none },
    data := .structNamed
      [⟨"a", [], Ty.path [("T", []), ("Value", [])]⟩,
       ⟨"b", [], Ty.path [("U", []), ("Value", [])]⟩] }

/-- `struct Foo<T> { x: u32 }`: the parameter `T` is entirely unused. -/
def c5In : DeriveInput :=
  { attrs := [], ident := "Foo",
    generics := { params := [.typeParam ⟨"T", []⟩], whereClause := none },
    data := .structNamed [⟨"x", [], Ty.path [("u32", [])]⟩] }

/-- `struct Bar<T: Clone> { y: String }`: unused parameter with an existing
bound. -/
def c5In2 : DeriveInput :=
  { attrs := [], ident := "Bar",
    generics := { params := [.typeParam ⟨"T", ["Clone"]⟩], whereClause := none },
    data := .structNamed [⟨"y", [], Ty.path [("String", [])]⟩] }

/-- An enum (non-struct data) carrying a record-level escape hatch. -/
def c6HatchIn : DeriveInput :=
  { attrs := [SynMeta.list "debug" [SynMeta.nameValue "bound" (SynExpr.litStr "T: Clone")]],
    ident := "E",
    generics := { params := [.typeParam ⟨"T", []⟩], whereClause := none },
    data := .notStruct }

/-- The same enum without the escape hatch. -/
def c6PlainIn : DeriveInput :=
  { attrs := [], ident := "E",
    generics := { params := [.typeParam ⟨"T", []⟩], whereClause := none },
    data := .notStruct }

/-- A field carrying the list-shaped entry `debug(format = "{:.2}")`. -/
def c7Fld : SynField :=
  ⟨"x", [SynMeta.list "debug" [SynMeta.nameValue "format" (SynExpr.litStr "\x7b:.2\x7d")]],
   Ty.path [("u32", [])]⟩

/-- A record whose only field carries `debug(format = "...")`. -/
def c7In : DeriveInput :=
  { attrs := [], ident := "S", generics := { params := [], whereClause := none },
    data := .structNamed [c7Fld] }

/-- Fields for the C7 witness: one with the name-value entry
`debug = "{:.2}"`, one without any debug entry. -/
def c7Wfs : List SynField :=
  [⟨"x", [SynMeta.nameValue "debug" (SynExpr.litStr "\x7b:.2\x7d")], Ty.path [("u32", [])]⟩,
   ⟨"y", [], Ty.path [("bool", [])]⟩]

/-- `struct S<T> { a: T::Value, b: T::Value }`: the same associated-type
path occurs in two fields. -/
def c8In : DeriveInput :=
  { attrs := [], ident := "S",
    generics := { params := [.typeParam ⟨"T", []⟩], whereClause := none },
    data := .structNamed
      [⟨"a", [], Ty.path [("T", []), ("Value", [])]⟩,
       ⟨"b", [], Ty.path [("T", []), ("Value", [])]⟩] }

/-- Fields of the C9 witness record. -/
def c9Fs : List SynField :=
  [⟨"x", [], Ty.path [("u32", [])]⟩, ⟨"y", [], Ty.path [("bool", [])]⟩]

/-- `struct S { x: u32, y: bool }`. -/
def c9In : DeriveInput :=
  { attrs := [], ident := "S", generics := { params := [], whereClause := none },
    data := .structNamed c9Fs }

/-- The artifact `expand` produces on `c9In`. -/
def c9Art : Artifact :=
  { name := "S", generics := { params := [], whereClause := some [] },
    fields := [.dflt "x", .dflt "y"] }

/-! ### Toolkit lemmas -/

theorem keysAux_mem (t : String) (l : List (String × Ty)) : ∀ (seen : List String),
    t ∈ keysAux seen l ↔ t ∉ seen ∧ ∃ p, (t, p) ∈ l := by
  induction l with
  | nil => intro seen; simp [keysAux]
  | cons hd rest ih =>
    intro seen
    obtain ⟨k, v⟩ := hd
    cases hk : seen.contains k with
    | true =>
      rw [keysAux, if_pos (by simpa using hk), ih seen]
      constructor
      · rintro ⟨hs, p, hp⟩
        exact ⟨hs, p, List.mem_cons_of_mem _ hp⟩
      · rintro ⟨hs, p, hp⟩
        rcases List.mem_cons.mp hp with h | h
        · obtain ⟨rfl, -⟩ := Prod.mk.injEq .. ▸ h
          exact absurd (by simpa using hk) (by simpa using hs)
        · exact ⟨hs, p, h⟩
    | false =>
      rw [keysAux, if_neg (by simpa using hk), List.mem_cons, ih (k :: seen)]
      constructor
      · rintro (rfl | ⟨hs, p, hp⟩)
        · exact ⟨by simpa using hk, v, List.mem_cons_self ..⟩
        · exact ⟨fun hmem => hs (List.mem_cons_of_mem _ hmem), p,
            List.mem_cons_of_mem _ hp⟩
      · rintro ⟨hs, p, hp⟩
        rcases List.mem_cons.mp hp with h | h
        · left
          obtain ⟨rfl, -⟩ := Prod.mk.injEq .. ▸ h
          rfl
        · by_cases htk : t = k
          · exact Or.inl htk
          · exact Or.inr ⟨by simp [htk, hs], p, h⟩

theorem keysOf_mem (t : String) (l : List (String × Ty)) :
    t ∈ keysOf l ↔ ∃ p, (t, p) ∈ l := by
  rw [keysOf, keysAux_mem]
  simp

theorem groupByKey_keys (l : List (String × Ty)) :
    (groupByKey l).map (·.1) = keysOf l := by
  simp [groupByKey, List.map_map, Function.comp_def]

theorem pred_mem_groupFlat (l : List (String × Ty)) (k : String) (p : Ty)
    (h : (k, p) ∈ l) (d : List String) :
    WherePredicate.tyBound p d ∈
      (groupByKey l).flatMap (fun kv => kv.2.map fun q => WherePredicate.tyBound q d) := by
  rw [List.mem_flatMap]
  refine ⟨(k, l.filterMap fun q => if q.1 = k then some q.2 else none), ?_, ?_⟩
  · rw [groupByKey]
    exact List.mem_map.mpr ⟨k, (keysOf_mem k l).mpr ⟨p, h⟩, rfl⟩
  · exact List.mem_map.mpr ⟨p, List.mem_filterMap.mpr ⟨(k, p), h, by simp⟩, rfl⟩

theorem lookup_map_step (ph fn ak : List String) (t : String)
    (ps : List GenericParam) :
    lookupParamBounds t (ps.map (boundParamStep ph fn ak)) =
      (lookupParamBounds t ps).map (fun bs =>
        if ph.contains t && !fn.contains t then bs
        else if ak.contains t && !fn.contains t then bs
        else bs ++ ["std::fmt::Debug"]) := by
  induction ps with
  | nil => simp [lookupParamBounds]
  | cons hd rest ih =>
    cases hd with
    | otherParam => simpa [boundParamStep, lookupParamBounds] using ih
    | typeParam tp =>
      by_cases hident : tp.ident = t
      · subst hident
        by_cases h1 : tp.ident ∈ ph ∧ tp.ident ∉ fn
        · simp [boundParamStep, h1, lookupParamBounds]
        · by_cases h2 : tp.ident ∈ ak ∧ tp.ident ∉ fn
          · simp [boundParamStep, h1, h2, lookupParamBounds]
          · simp [boundParamStep, h1, h2, lookupParamBounds]
      · by_cases h1 : tp.ident ∈ ph ∧ tp.ident ∉ fn
        · simpa [boundParamStep, h1, lookupParamBounds, hident] using ih
        · by_cases h2 : tp.ident ∈ ak ∧ tp.ident ∉ fn
          · simpa [boundParamStep, h1, h2, lookupParamBounds, hident] using ih
          · simpa [boundParamStep, h1, h2, lookupParamBounds, hident] using ih

theorem mentionsSegs_of_mem (t : String) (segs : List (String × List Ty))
    (pr : String × List Ty) (hmem : pr ∈ segs) (hident : pr.1 = t) :
    mentionsSegs t segs = true := by
  induction segs with
  | nil => cases hmem
  | cons hd rest ih =>
    obtain ⟨i, args⟩ := hd
    rcases List.mem_cons.mp hmem with h | h
    · subst h
      simp [mentionsSegs, hident.symm]
    · simp [mentionsSegs, ih h]

theorem getFieldTypeName_ne_of_not_mentions (t : String) (f : SynField)
    (h : mentionsTy t f.ty = false) : getFieldTypeName f ≠ some t := by
  intro hname
  cases hty : f.ty with
  | nonPath => rw [getFieldTypeName, hty] at hname; cases hname
  | path segs =>
    rw [getFieldTypeName, hty] at hname
    obtain ⟨⟨i, args⟩, hlast, hfst⟩ := Option.map_eq_some'.mp hname
    rw [hty] at h
    simp only [mentionsTy] at h
    rw [mentionsSegs_of_mem t segs (i, args) (List.mem_of_mem_getLast? hlast) hfst] at h
    cases h

theorem getFieldTypeName_ne_of_onlyRoot (t : String) (f : SynField)
    (h : onlyRootTy t f.ty = true) : getFieldTypeName f ≠ some t := by
  intro hname
  cases hty : f.ty with
  | nonPath => rw [getFieldTypeName, hty] at hname; cases hname
  | path segs =>
    rw [getFieldTypeName, hty] at hname
    rw [onlyRootTy.eq_def, hty] at h
    obtain ⟨hok, -⟩ := Bool.and_eq_true_iff.mp h
    obtain ⟨⟨i, args⟩, hlast, hfst⟩ := Option.map_eq_some'.mp hname
    cases segs with
    | nil => cases hlast
    | cons hd rest =>
      obtain ⟨j, jargs⟩ := hd
      obtain ⟨hhead, hall⟩ := Bool.and_eq_true_iff.mp hok
      cases rest with
      | nil =>
        have hpair : (j, jargs) = (i, args) := by simpa using hlast
        have hjt : j ≠ t := by simpa using hhead
        have hij : j = i := congrArg Prod.fst hpair
        exact hjt (hij.trans hfst)
      | cons r rs =>
        have hlast' : (r :: rs).getLast? = some (i, args) := by
          simpa [List.getLast?_cons_cons] using hlast
        have hmem : (i, args) ∈ r :: rs := List.mem_of_mem_getLast? hlast'
        have := List.all_eq_true.mp hall _ hmem
        simp only [bne_iff_ne, ne_eq] at this
        exact this hfst

theorem phantom_of_shape (t : String) (f : SynField)
    (h : isPhantomFieldFor t f) : getPhantomdataGenericTypeName f = some t := by
  obtain ⟨pre, hty, -⟩ := h
  rw [getPhantomdataGenericTypeName, hty]
  simp [List.getLast?_concat]

theorem getFieldTypeName_ne_of_phantom (t : String) (f : SynField)
    (hT : t ≠ "PhantomData") (h : isPhantomFieldFor t f) :
    getFieldTypeName f ≠ some t := by
  obtain ⟨pre, hty, -⟩ := h
  rw [getFieldTypeName, hty]
  simp [List.getLast?_concat]
  exact fun hPh => absurd hPh.symm hT

theorem getFieldTypeName_of_plain (t : String) (f : SynField)
    (h : isPlainT t f.ty = true) : getFieldTypeName f = some t := by
  cases hty : f.ty with
  | nonPath => rw [isPlainT.eq_def, hty] at h; cases h
  | path segs =>
    rw [isPlainT.eq_def, hty] at h
    match segs, h with
    | [(x, args)], h =>
      obtain ⟨hx, hargs⟩ := Bool.and_eq_true_iff.mp h
      rw [getFieldTypeName, hty]
      simp_all

theorem fieldFmtOf_name (f : SynField) (r : FieldFmt) (h : fieldFmtOf f = some r) :
    r.name = f.ident := by
  rw [fieldFmtOf] at h
  obtain ⟨fmt, -, hr⟩ := Option.map_eq_some'.mp h
  cases fmt with
  | some s => subst hr; rfl
  | none => subst hr; rfl

theorem debugFields_map_name (fs : List SynField) (l : List FieldFmt)
    (h : debugFields (.structNamed fs) = some l) :
    l.map FieldFmt.name = fs.map SynField.ident := by
  rw [debugFields] at h
  induction fs generalizing l with
  | nil =>
    rw [List.mapM_nil] at h
    injection h with h
    subst h
    rfl
  | cons f rest ih =>
    rw [List.mapM_cons] at h
    obtain ⟨r, hr, h2⟩ := Option.bind_eq_some.mp h
    obtain ⟨rs, hrs, h3⟩ := Option.bind_eq_some.mp h2
    injection h3 with h3
    subst h3
    simp [fieldFmtOf_name f r hr, ih rs hrs]

theorem debugFields_get (fs : List SynField) (l : List FieldFmt)
    (h : debugFields (.structNamed fs) = some l) :
    ∀ (i : Nat) (f : SynField), fs[i]? = some f →
      ∃ r, fieldFmtOf f = some r ∧ l[i]? = some r := by
  rw [debugFields] at h
  induction fs generalizing l with
  | nil => intro i f hf; simp at hf
  | cons f0 rest ih =>
    rw [List.mapM_cons] at h
    obtain ⟨r, hr, h2⟩ := Option.bind_eq_some.mp h
    obtain ⟨rs, hrs, h3⟩ := Option.bind_eq_some.mp h2
    injection h3 with h3
    subst h3
    intro i f hf
    cases i with
    | zero =>
      simp only [List.getElem?_cons_zero] at hf
      injection hf with hf
      subst hf
      exact ⟨r, hr, by simp⟩
    | succ n =>
      simp only [List.getElem?_cons_succ] at hf
      obtain ⟨r', hr', hl⟩ := ih rs hrs n f hf
      exact ⟨r', hr', by simpa using hl⟩

theorem fieldFormatFold_append_skip (pre rest : List SynMeta) (acc : Option String)
    (h : ∀ a ∈ pre, a.head ≠ "debug") :
    fieldFormatFold (pre ++ rest) acc = fieldFormatFold rest acc := by
  induction pre with
  | nil => rfl
  | cons a pre' ih =>
    have ha : a.head ≠ "debug" := h a (List.mem_cons_self ..)
    rw [List.cons_append]
    rw [fieldFormatFold.eq_def]
    simp only [if_neg ha]
    exact ih (fun b hb => h b (List.mem_cons_of_mem _ hb))

theorem fieldFormatFold_all_skip (attrs : List SynMeta) (acc : Option String)
    (h : ∀ a ∈ attrs, a.head ≠ "debug") : fieldFormatFold attrs acc = some acc := by
  have h0 := fieldFormatFold_append_skip attrs [] acc h
  rw [List.append_nil] at h0
  rw [h0]
  rfl

theorem collectInput_mem_of_field (input : DeriveInput) (fs : List SynField)
    (hData : input.data = .structNamed fs) (f : SynField) (hf : f ∈ fs)
    (t : String) (p : Ty) (hp : (t, p) ∈ collectTy (genericTypeNames input) f.ty) :
    (t, p) ∈ collectInput input := by
  simp only [collectInput, hData]
  exact List.mem_append_right _ (List.mem_flatMap.mpr ⟨f, hf, hp⟩)

theorem addTraitBounds_hatch (input : DeriveInput) (hs : List String)
    (hHatch : getStructEscapeHatch input = some hs) :
    addTraitBounds input = .ok
      { params := input.generics.params,
        whereClause := some ((input.generics.whereClause.getD []) ++
          hs.map WherePredicate.raw) } := by
  simp only [addTraitBounds, addTraitBoundsWith, hHatch]

theorem addTraitBounds_infer (input : DeriveInput) (fs : List SynField)
    (hHatch : getStructEscapeHatch input = none)
    (hData : input.data = .structNamed fs) :
    addTraitBounds input = .ok
      { params := input.generics.params.map
          (boundParamStep (fs.filterMap getPhantomdataGenericTypeName)
            (fs.filterMap getFieldTypeName)
            ((getGenericAssociatedTypes input).map (·.1))),
        whereClause := some ((input.generics.whereClause.getD []) ++
          (getGenericAssociatedTypes input).flatMap fun kv =>
            kv.2.map fun p => WherePredicate.tyBound p ["std::fmt::Debug"]) } := by
  simp only [addTraitBounds, addTraitBoundsWith, hHatch, getFieldsFromDeriveInput,
    hData, id_eq]

/-! ### Claims -/

/-- C1: for every record with one or more record-level `bound = "..."`
entries, `add_trait_bounds` leaves the parameter bounds untouched (no
automatic inference) and the where clause receives exactly the literal
clauses, in attribute order, appended to the input's own where clause. -/
theorem escape_hatch_exact_clauses (input : DeriveInput) (hs : List String)
    (hHs : collectHatches input.attrs = hs) (hNe : hs ≠ []) :
    addTraitBounds input = .ok
      { params := input.generics.params,
        whereClause := some ((input.generics.whereClause.getD []) ++
          hs.map WherePredicate.raw) } := by
  apply addTraitBounds_hatch
  have hne' : ¬ hs.isEmpty = true := by simpa [List.isEmpty_iff] using hNe
  simp only [getStructEscapeHatch, hHs, if_neg hne']

/-- Witness for C1: a record with two hatch entries and a field that would
otherwise have received an inferred `T: Debug` bound. -/
theorem escape_hatch_exact_clauses_witness :
    addTraitBounds c1In = .ok
      { params := c1In.generics.params,
        whereClause := some ((c1In.generics.whereClause.getD []) ++
          (["T: Trait", "U: Copy"] : List String).map WherePredicate.raw) } :=
  escape_hatch_exact_clauses c1In ["T: Trait", "U: Copy"] rfl (by decide)

/-- C4 (code observation): the where-clause loop of `add_trait_bounds`
iterates a `HashMap` whose order is unspecified; two legitimate iteration
orders of the same grouped map (the identity and the reversal, which is a
permutation of any list) yield different generic clauses on `c4In`, so the
emitted clause order is not determined by the input. -/
theorem hashmap_order_changes_output :
    (∀ (l : List (String × List Ty)), (List.reverse l).Perm l) ∧
    addTraitBoundsWith List.reverse c4In ≠ addTraitBoundsWith id c4In := by
  refine ⟨fun l => l.reverse_perm, ?_⟩
  intro h
  have h1 : addTraitBoundsWith id c4In = .ok
      { params := [.typeParam ⟨"T", []⟩, .typeParam ⟨"U", []⟩],
        whereClause := some
          [WherePredicate.tyBound (Ty.path [("T", []), ("Value", [])]) ["std::fmt::Debug"],
           WherePredicate.tyBound (Ty.path [("U", []), ("Value", [])]) ["std::fmt::Debug"]] } := rfl
  have h2 : addTraitBoundsWith List.reverse c4In = .ok
      { params := [.typeParam ⟨"T", []⟩, .typeParam ⟨"U", []⟩],
        whereClause := some
          [WherePredicate.tyBound (Ty.path [("U", []), ("Value", [])]) ["std::fmt::Debug"],
           WherePredicate.tyBound (Ty.path [("T", []), ("Value", [])]) ["std::fmt::Debug"]] } := rfl
  rw [h1, h2] at h
  simp at h

/-- C5 counterexample: on `struct Foo<T> { x: u32 }` the unused parameter
`T` does receive the `std::fmt::Debug` bound, contrary to the claim that no
bound is added. -/
theorem unused_param_gets_bound_cex :
    boundsOf (addTraitBounds c5In) "T" = some ["std::fmt::Debug"] := rfl

/-- C5 amended: a generic parameter with no usage at all (not a field type
name, not a marker-wrapper payload, not the root of any collected
associated-type path) receives the default `std::fmt::Debug` bound. -/
theorem unused_param_bound_amended (input : DeriveInput) (fs : List SynField)
    (t : String) (bs : List String)
    (hHatch : getStructEscapeHatch input = none)
    (hData : input.data = .structNamed fs)
    (hBs : lookupParamBounds t input.generics.params = some bs)
    (hNoPlain : ∀ f ∈ fs, getFieldTypeName f ≠ some t)
    (hNoPhantom : ∀ f ∈ fs, getPhantomdataGenericTypeName f ≠ some t)
    (hNoAssoc : ∀ p : Ty, (t, p) ∉ collectInput input) :
    boundsOf (addTraitBounds input) t = some (bs ++ ["std::fmt::Debug"]) := by
  rw [addTraitBounds_infer input fs hHatch hData, boundsOf, lookup_map_step, hBs]
  have hph : t ∉ fs.filterMap getPhantomdataGenericTypeName := by
    intro hmem
    obtain ⟨f, hf, hx⟩ := List.mem_filterMap.mp hmem
    exact hNoPhantom f hf hx
  have hak : t ∉ (getGenericAssociatedTypes input).map (·.1) := by
    rw [getGenericAssociatedTypes, groupByKey_keys, keysOf_mem]
    rintro ⟨p, hp⟩
    exact hNoAssoc p hp
  simp [hph, hak]

/-- Witness for the amended C5: the unused `T` of
`struct Bar<T: Clone> { y: String }` ends with bounds
`["Clone", "std::fmt::Debug"]`. -/
theorem unused_param_bound_amended_witness :
    boundsOf (addTraitBounds c5In2) "T" = some (["Clone"] ++ ["std::fmt::Debug"]) := by
  apply unused_param_bound_amended c5In2 [⟨"y", [], Ty.path [("String", [])]⟩] "T" ["Clone"]
    rfl rfl rfl
  · intro f hf
    simp only [List.mem_singleton] at hf
    subst hf
    decide
  · intro f hf
    simp only [List.mem_singleton] at hf
    subst hf
    decide
  · intro p hp
    exact absurd hp (List.not_mem_nil _)

/-- C6 (code observation): an enum without a record-level escape hatch is
rejected with the structured error, but the same enum with an escape hatch
reaches the `unimplemented!()` of `debug_fields`, i.e. a panic instead of a
structured error value. -/
theorem enum_with_hatch_panics :
    expand c6PlainIn = .err "Must define on a Struct, not Enum" ∧
    expand c6HatchIn = .panicked :=
  ⟨rfl, rfl⟩

/-- C10 (spec-modelled builder): for a field annotated `each = "n"`, if `n`
equals the field's own identifier exactly the accumulating setter is emitted
(the all-at-once setter is suppressed), and if `n` differs both methods are
emitted. -/
theorem each_name_collision_policy (f : BuilderField) (n : String)
    (h : f.eachName = some n) :
    (n = f.ident → builderFieldMethods f = [BuilderMethod.accumulating n]) ∧
    (n ≠ f.ident → builderFieldMethods f =
      [BuilderMethod.allAtOnce f.ident, BuilderMethod.accumulating n]) := by
  constructor <;> intro hn <;> simp [builderFieldMethods, h, hn]

/-- Witness for C10: the `args`/`arg`/`env` example of the builder caller —
a colliding `each` name yields one method, a differing one yields two. -/
theorem each_name_collision_policy_witness :
    builderFieldMethods ⟨"arg", some "arg"⟩ = [BuilderMethod.accumulating "arg"] ∧
    builderFieldMethods ⟨"args", some "arg"⟩ =
      [BuilderMethod.allAtOnce "args", BuilderMethod.accumulating "arg"] :=
  ⟨(each_name_collision_policy ⟨"arg", some "arg"⟩ "arg" rfl).1 rfl,
   (each_name_collision_policy ⟨"args", some "arg"⟩ "arg" rfl).2 (by decide)⟩

/-- C2: with no escape hatch, a parameter `t` occurring only as the sole
type argument of `PhantomData` in some field gets no Debug bound, but if it
additionally occurs as a plain top-level field type the direct use dominates
and the Debug bound is appended. -/
theorem phantom_marker_bound_policy (input : DeriveInput) (fs : List SynField)
    (t : String) (bs : List String)
    (hHatch : getStructEscapeHatch input = none)
    (hData : input.data = .structNamed fs)
    (hT : t ≠ "PhantomData")
    (hBs : lookupParamBounds t input.generics.params = some bs)
    (hPh : ∃ f ∈ fs, isPhantomFieldFor t f)
    (hOnly : ∀ f ∈ fs, isPhantomFieldFor t f ∨ isPlainT t f.ty = true ∨
      mentionsTy t f.ty = false) :
    boundsOf (addTraitBounds input) t =
      some (if fs.any (fun f => isPlainT t f.ty) then bs ++ ["std::fmt::Debug"] else bs) := by
  rw [addTraitBounds_infer input fs hHatch hData, boundsOf, lookup_map_step, hBs]
  obtain ⟨f0, hf0, hph0⟩ := hPh
  have hphmem : t ∈ fs.filterMap getPhantomdataGenericTypeName :=
    List.mem_filterMap.mpr ⟨f0, hf0, phantom_of_shape t f0 hph0⟩
  by_cases hplain : ∃ f ∈ fs, isPlainT t f.ty = true
  · obtain ⟨f1, hf1, hp1⟩ := hplain
    have hfn : t ∈ fs.filterMap getFieldTypeName :=
      List.mem_filterMap.mpr ⟨f1, hf1, getFieldTypeName_of_plain t f1 hp1⟩
    have hany : fs.any (fun f => isPlainT t f.ty) = true :=
      List.any_eq_true.mpr ⟨f1, hf1, hp1⟩
    simp [hfn, hany]
  · have hnofn : t ∉ fs.filterMap getFieldTypeName := by
      intro hmem
      obtain ⟨f1, hf1, hname⟩ := List.mem_filterMap.mp hmem
      rcases hOnly f1 hf1 with hcase | hcase | hcase
      · exact getFieldTypeName_ne_of_phantom t f1 hT hcase hname
      · exact hplain ⟨f1, hf1, hcase⟩
      · exact getFieldTypeName_ne_of_not_mentions t f1 hcase hname
    have hany : fs.any (fun f => isPlainT t f.ty) = false := by
      rw [List.any_eq_false]
      intro f hf
      intro hp
      exact hplain ⟨f, hf, hp⟩
    simp [hphmem, hnofn, hany]

/-- Witness for C2: `struct S<T> { m: PhantomData<T> }` leaves `T` unbounded
and `struct S2<T> { m: PhantomData<T>, v: T }` appends the Debug bound. -/
theorem phantom_marker_bound_policy_witness :
    boundsOf (addTraitBounds c2aIn) "T" = some [] ∧
    boundsOf (addTraitBounds c2bIn) "T" = some ["std::fmt::Debug"] := by
  constructor
  · have h := phantom_marker_bound_policy c2aIn
      [⟨"m", [], Ty.path [("PhantomData", [Ty.path [("T", [])]])]⟩] "T" []
      rfl rfl (by decide) rfl
      ⟨⟨"m", [], Ty.path [("PhantomData", [Ty.path [("T", [])]])]⟩,
        List.mem_singleton_self _, [], rfl, rfl⟩
      (by
        intro f hf
        rw [List.mem_singleton] at hf
        subst hf
        exact Or.inl ⟨[], rfl, rfl⟩)
    exact h.trans (by rfl)
  · have h := phantom_marker_bound_policy c2bIn
      [⟨"m", [], Ty.path [("PhantomData", [Ty.path [("T", [])]])]⟩,
       ⟨"v", [], Ty.path [("T", [])]⟩] "T" []
      rfl rfl (by decide) rfl
      ⟨⟨"m", [], Ty.path [("PhantomData", [Ty.path [("T", [])]])]⟩,
        List.mem_cons_self _ _, [], rfl, rfl⟩
      (by
        intro f hf
        rw [List.mem_cons, List.mem_singleton] at hf
        rcases hf with rfl | rfl
        · exact Or.inl ⟨[], rfl, rfl⟩
        · exact Or.inr (Or.inl (by decide)))
    exact h.trans (by rfl)

/-- C3: with no escape hatch, a parameter `t` whose every occurrence in the
field types is as the root of a multi-segment (associated-type) path gets no
Debug bound on itself, and every collected associated-type path receives a
`path : std::fmt::Debug` where-clause predicate. -/
theorem assoc_type_bound_policy (input : DeriveInput) (fs : List SynField)
    (t : String) (bs : List String)
    (hHatch : getStructEscapeHatch input = none)
    (hData : input.data = .structNamed fs)
    (hBs : lookupParamBounds t input.generics.params = some bs)
    (hUsed : ∃ f ∈ fs, ∃ p, (t, p) ∈ collectTy (genericTypeNames input) f.ty)
    (hOnly : ∀ f ∈ fs, onlyRootTy t f.ty = true) :
    boundsOf (addTraitBounds input) t = some bs ∧
    ∀ (k : String) (p : Ty), (k, p) ∈ collectInput input →
      WherePredicate.tyBound p ["std::fmt::Debug"] ∈ wherePredsOf (addTraitBounds input) := by
  rw [addTraitBounds_infer input fs hHatch hData]
  constructor
  · rw [boundsOf, lookup_map_step, hBs]
    obtain ⟨f0, hf0, p0, hp0⟩ := hUsed
    have hkey : t ∈ (getGenericAssociatedTypes input).map (·.1) := by
      rw [getGenericAssociatedTypes, groupByKey_keys, keysOf_mem]
      exact ⟨p0, collectInput_mem_of_field input fs hData f0 hf0 t p0 hp0⟩
    have hnofn : t ∉ fs.filterMap getFieldTypeName := by
      intro hmem
      obtain ⟨f1, hf1, hname⟩ := List.mem_filterMap.mp hmem
      exact getFieldTypeName_ne_of_onlyRoot t f1 (hOnly f1 hf1) hname
    by_cases hph : t ∈ fs.filterMap getPhantomdataGenericTypeName
    · simp [hph, hnofn]
    · simp [hph, hnofn, hkey]
  · intro k p hmem
    simp only [wherePredsOf, Option.getD_some]
    apply List.mem_append_right
    rw [getGenericAssociatedTypes]
    exact pred_mem_groupFlat (collectInput input) k p hmem ["std::fmt::Debug"]

/-- Witness for C3: on `struct S<T> { a: T::Value }`, `T` keeps its empty
bound list and `T::Value : std::fmt::Debug` is among the where predicates. -/
theorem assoc_type_bound_policy_witness :
    boundsOf (addTraitBounds c3In) "T" = some [] ∧
    WherePredicate.tyBound c3P ["std::fmt::Debug"] ∈ wherePredsOf (addTraitBounds c3In) := by
  have h := assoc_type_bound_policy c3In [c3F] "T" [] rfl rfl rfl
    ⟨c3F, List.mem_singleton_self _, c3P, List.mem_singleton_self _⟩
    (by
      intro f hf
      rw [List.mem_singleton] at hf
      subst hf
      decide)
  exact ⟨h.1, h.2 "T" c3P (List.mem_singleton_self _)⟩

/-- C7 counterexample: a field carrying the list-shaped entry
`debug(format = "{:.2}")` — the shape the claim describes — is not rendered
through the template: `debug_fields` hits `unimplemented!()` and the whole
expansion panics, producing no formatter at all. -/
theorem format_list_attr_panics_cex :
    debugFields (SynData.structNamed [c7Fld]) = none ∧ expand c7In = .panicked :=
  ⟨rfl, rfl⟩

/-- C7 amended: the recognised format-string entry is the name-value shape
`debug = "<template>"`; a field carrying exactly one such entry is rendered
through the template (via `format_args!`), and a field with no `debug` entry
gets default structural Debug formatting.  (The list shape
`debug(format = ...)` is unsupported and panics.) -/
theorem debug_namevalue_format_amended (fs : List SynField) (l : List FieldFmt)
    (hDF : debugFields (.structNamed fs) = some l) :
    ∀ (i : Nat) (f : SynField), fs[i]? = some f →
      ((∀ a ∈ f.attrs, a.head ≠ "debug") → l[i]? = some (FieldFmt.dflt f.ident)) ∧
      (∀ (pre post : List SynMeta) (s : String),
        f.attrs = pre ++ SynMeta.nameValue "debug" (SynExpr.litStr s) :: post →
        (∀ a ∈ pre, a.head ≠ "debug") → (∀ a ∈ post, a.head ≠ "debug") →
        l[i]? = some (FieldFmt.custom f.ident s)) := by
  intro i f hf
  obtain ⟨r, hr, hl⟩ := debugFields_get fs l hDF i f hf
  constructor
  · intro hnone
    rw [fieldFmtOf, fieldFormatFold_all_skip f.attrs none hnone] at hr
    rw [Option.map_some'] at hr
    injection hr with hr
    subst hr
    exact hl
  · intro pre post s hattrs hpre hpost
    rw [fieldFmtOf, hattrs, fieldFormatFold_append_skip pre _ none hpre] at hr
    rw [show fieldFormatFold (SynMeta.nameValue "debug" (SynExpr.litStr s) :: post) none =
      fieldFormatFold post (some s) from rfl] at hr
    rw [fieldFormatFold_all_skip post (some s) hpost, Option.map_some'] at hr
    injection hr with hr
    subst hr
    exact hl

/-- Witness for the amended C7: in a record with a `debug = "{:.2}"` field
`x` and an untagged field `y`, `x` is rendered through the template and `y`
structurally. -/
theorem debug_namevalue_format_amended_witness :
    [FieldFmt.custom "x" "\x7b:.2\x7d", FieldFmt.dflt "y"][0]? =
      some (FieldFmt.custom "x" "\x7b:.2\x7d") ∧
    [FieldFmt.custom "x" "\x7b:.2\x7d", FieldFmt.dflt "y"][1]? =
      some (FieldFmt.dflt "y") := by
  have h := debug_namevalue_format_amended c7Wfs
    [FieldFmt.custom "x" "\x7b:.2\x7d", FieldFmt.dflt "y"] rfl
  constructor
  · exact (h 0 ⟨"x", [SynMeta.nameValue "debug" (SynExpr.litStr "\x7b:.2\x7d")],
      Ty.path [("u32", [])]⟩ rfl).2 [] [] "\x7b:.2\x7d" rfl
      (by intro a ha; cases ha) (by intro a ha; cases ha)
  · exact (h 1 ⟨"y", [], Ty.path [("bool", [])]⟩ rfl).1 (by intro a ha; cases ha)

/-- C8 counterexample: on `struct S<T> { a: T::Value, b: T::Value }` the
where clause produced by `add_trait_bounds` contains the predicate
`T::Value : std::fmt::Debug` twice — two identical added constraints. -/
theorem duplicate_where_predicates_cex :
    wherePredsOf (addTraitBounds c8In) =
      [WherePredicate.tyBound (Ty.path [("T", []), ("Value", [])]) ["std::fmt::Debug"],
       WherePredicate.tyBound (Ty.path [("T", []), ("Value", [])]) ["std::fmt::Debug"]] :=
  rfl

/-- C8 amended: in the parameter list itself a parameter never receives more
than one added bound — each parameter's bound list is either unchanged or
extended by exactly one `std::fmt::Debug`; associated-type where-clause
predicates, by contrast, are pushed once per collected occurrence and may
repeat. -/
theorem param_bound_added_at_most_once (input : DeriveInput) (fs : List SynField)
    (t : String) (bs : List String)
    (hHatch : getStructEscapeHatch input = none)
    (hData : input.data = .structNamed fs)
    (hBs : lookupParamBounds t input.generics.params = some bs) :
    boundsOf (addTraitBounds input) t = some bs ∨
    boundsOf (addTraitBounds input) t = some (bs ++ ["std::fmt::Debug"]) := by
  rw [addTraitBounds_infer input fs hHatch hData, boundsOf, lookup_map_step, hBs]
  rw [Option.map_some']
  split
  · exact Or.inl rfl
  · split
    · exact Or.inl rfl
    · exact Or.inr rfl

/-- Witness for the amended C8: on `c8In` the parameter `T` keeps its
(empty) bound list or gains exactly one Debug bound. -/
theorem param_bound_added_at_most_once_witness :
    boundsOf (addTraitBounds c8In) "T" = some [] ∨
    boundsOf (addTraitBounds c8In) "T" = some ([] ++ ["std::fmt::Debug"]) :=
  param_bound_added_at_most_once c8In
    [⟨"a", [], Ty.path [("T", []), ("Value", [])]⟩,
     ⟨"b", [], Ty.path [("T", []), ("Value", [])]⟩] "T" [] rfl rfl rfl

/-- C9: whenever the expansion succeeds on a named-fields record, the
artifact prints the record's name and its `.field` calls carry the field
names in exactly declaration order. -/
theorem debug_field_order_preserved (input : DeriveInput) (fs : List SynField)
    (a : Artifact)
    (hData : input.data = .structNamed fs)
    (hOk : expand input = .ok a) :
    a.name = input.ident ∧ a.fields.map FieldFmt.name = fs.map SynField.ident := by
  rw [expand.eq_def] at hOk
  cases hatb : addTraitBounds input with
  | error e => rw [hatb] at hOk; cases hOk
  | ok g =>
    rw [hatb] at hOk
    cases hdf : debugFields input.data with
    | none => rw [hdf] at hOk; cases hOk
    | some l =>
      rw [hdf] at hOk
      injection hOk with hOk
      subst hOk
      refine ⟨rfl, ?_⟩
      rw [hData] at hdf
      exact debugFields_map_name fs l hdf

/-- Witness for C9: `struct S { x: u32, y: bool }` prints `S` then `x`, `y`
in order. -/
theorem debug_field_order_preserved_witness :
    c9Art.name = c9In.ident ∧ c9Art.fields.map FieldFmt.name = c9Fs.map SynField.ident :=
  debug_field_order_preserved c9In c9Fs c9Art rfl rfl
